import Mathlib

/-!
# Verification of the cellsolver integration engine

Shallow embedding of `src/cellsolver/main.py`.  Numeric values are modelled
as rationals (`ℚ`): the spec's properties are stated "independent of
floating-point representation choices", and every concrete computation in the
claims is exact in `ℚ`.  Python lists become `List ℚ`; in-place mutation of a
list argument becomes a function returning the updated list.

* `System` models the model contract: the three vector factories
  (`createStateVector`, `createRateVector`, `createVariableVector`) and the
  three compute operations.  Python's `initializeConstants(states, variables)`
  and `computeRates(t, states, rates, variables)` mutate their list arguments
  in place; here they return the updated `(states, variables)` resp.
  `(rates, variables)` pairs.  (In-place mutation can never change a list's
  length, so the length-preservation hypotheses appearing in some theorems
  hold automatically for any Python model.)
* `initSystem` models `initialize_system` (renamed for Lean).
* `solve_using_euler` models the decorated `solve_using_euler`; the Python
  `while t < end` loop becomes the fuel-indexed `eulerLoop` (the fuel bounds
  the number of iterations the embedding is willing to unfold; theorems either
  hold for every fuel or come with an explicit sufficient-fuel hypothesis).
* `solve_using_scipy` models `solve_using_scipy`.  The third-party
  `scipy.integrate.ode` object built from `ode(update)`, `set_integrator`,
  `set_initial_value` and `set_f_params` is modelled by the `OdeSolver` state
  record (fields `t`, `y`, `successful`, exactly the attributes the loop
  reads) together with an abstract transition `integrate : OdeSolver → ℚ →
  OdeSolver` standing for `solver.integrate(target)`; `solve_using_dop853`
  and `solve_using_vode` pass the abstract integrator of the corresponding
  scipy method.  A fresh scipy solver reports `successful() == True`.
* `timeExecutionCall` models `TimeExecution.__call__`: the timing loop calls
  the wrapped driver `number` extra times (discarding the results; printing
  and wall-clock reads are I/O, outside the embedding) and returns the value
  of one further plain call.
* `main` models the driver-selection core of `main()` (argument parsing,
  the `TimeExecution` flag mutation and plotting are I/O glue, excluded by
  the spec); `KNOWN_SOLVERS` is the source's list.
-/

namespace CellSolver

/-- The model contract of `main.py` (the five-operation interface a generated
model module provides).  Mutating operations return their updated arguments. -/
structure System where
  createStateVector : List ℚ
  createRateVector : List ℚ
  createVariableVector : List ℚ
  initConstants : List ℚ → List ℚ → List ℚ × List ℚ
  computeComputedConstants : List ℚ → List ℚ
  computeRates : ℚ → List ℚ → List ℚ → List ℚ → List ℚ × List ℚ

/-- `initialize_system(system)`: build the three vectors, then
`initializeConstants(states, variables)`, then
`computeComputedConstants(variables)`, returning `(states, rates, variables)`. -/
def initSystem (system : System) : List ℚ × List ℚ × List ℚ :=
  let rates := system.createRateVector
  let states := system.createStateVector
  let vars := system.createVariableVector
  let sv := system.initConstants states vars
  let vars2 := system.computeComputedConstants sv.2
  (sv.1, rates, vars2)

/-- The result-recording step shared by both drivers:
`for index, value in enumerate(states): results[index].append(value)`.
For each index `i` of `results`, append `states[i]` when it exists; an index
of `results` beyond the length of `states` is left unchanged (in the drivers
`states` is never longer than `results`, so the converse case cannot arise). -/
def appendStates : List (List ℚ) → List ℚ → List (List ℚ)
  | rs, [] => rs
  | [], _ :: _ => []
  | r :: rs, v :: vs => (r ++ [v]) :: appendStates rs vs

/-- The body and iteration of `solve_using_euler`'s `while t < end:` loop,
threading the loop variables `t`, `states`, `rates`, `variables` and the
accumulators `x`, `results`.  Each iteration computes the rates at `t`,
updates `states` by `delta = rate * step_size` (via `zip`, exactly as the
source's `[sum(x) for x in zip(states, delta)]`), records `t` into `x` and
the new `states` into `results`, and only then advances `t` by `step_size`. -/
def eulerLoop (system : System) (step_size tEnd : ℚ) :
    ℕ → ℚ → List ℚ → List ℚ → List ℚ → List ℚ → List (List ℚ) →
    List ℚ × List (List ℚ)
  | 0, _, _, _, _, x, results => (x, results)
  | fuel + 1, t, states, rates, vars, x, results =>
    if t < tEnd then
      let rv := system.computeRates t states rates vars
      let delta := rv.1.map (fun var => var * step_size)
      let states2 := (states.zip delta).map (fun p => p.1 + p.2)
      eulerLoop system step_size tEnd fuel (t + step_size) states2 rv.1 rv.2
        (x ++ [t]) (appendStates results states2)
    else (x, results)

/-- `solve_using_euler(system, step_size, interval)` (the function wrapped by
`@TimeExecution`): initialize the system, set `t = interval[0]`,
`end = interval[-1]`, start with `x = []` and `results` holding one empty
series per state, and run the loop. -/
def solve_using_euler (system : System) (step_size : ℚ) (interval : List ℚ)
    (fuel : ℕ) : List ℚ × List (List ℚ) :=
  let srv := initSystem system
  eulerLoop system step_size (interval.getLast!) fuel (interval.head!)
    srv.1 srv.2.1 srv.2.2 [] (List.replicate srv.1.length [])

/-- One Euler step at time `t` on the `(states, rates, variables)` triple:
compute the rates, then `states[i] += rates[i] * step_size` (truncating to
the shorter of the two vectors, as `zip` does). -/
def eulerStep (system : System) (step_size t : ℚ)
    (srv : List ℚ × List ℚ × List ℚ) : List ℚ × List ℚ × List ℚ :=
  let rv := system.computeRates t srv.1 srv.2.1 srv.2.2
  let delta := rv.1.map (fun var => var * step_size)
  ((srv.1.zip delta).map (fun p => p.1 + p.2), rv.1, rv.2)

/-- `n` Euler steps starting at time `t` (the `k`-th step runs at time
`t + k * step_size`). -/
def eulerIter (system : System) (step_size : ℚ) :
    ℕ → ℚ → List ℚ × List ℚ × List ℚ → List ℚ × List ℚ × List ℚ
  | 0, _, srv => srv
  | n + 1, t, srv =>
    eulerIter system step_size n (t + step_size) (eulerStep system step_size t srv)

/-- The sequence of `(recorded time, recorded states)` samples produced by the
Euler loop, as a plain list (proved equal to what `eulerLoop` accumulates). -/
def eulerSamples (system : System) (step_size tEnd : ℚ) :
    ℕ → ℚ → List ℚ × List ℚ × List ℚ → List (ℚ × List ℚ)
  | 0, _, _ => []
  | fuel + 1, t, srv =>
    if t < tEnd then
      (t, (eulerStep system step_size t srv).1) ::
        eulerSamples system step_size tEnd fuel (t + step_size)
          (eulerStep system step_size t srv)
    else []

/-- `update(voi, states, system, rates, variables)`: the derivative callback
handed to `scipy.integrate.ode` — it calls `computeRates` and returns the
rate vector. -/
def update (voi : ℚ) (states : List ℚ) (system : System)
    (rates vars : List ℚ) : List ℚ :=
  (system.computeRates voi states rates vars).1

/-- The attributes of a `scipy.integrate.ode` object that
`solve_using_scipy` reads: the current time `solver.t`, the current state
`solver.y`, and the `solver.successful()` flag. -/
structure OdeSolver where
  t : ℚ
  y : List ℚ
  successful : Bool
deriving DecidableEq

/-- The `while solver.successful() and solver.t < end:` loop of
`solve_using_scipy`: each iteration calls `solver.integrate(solver.t +
step_size)` and then records `solver.t` and `solver.y` — whether or not that
integration succeeded (the guard is only re-examined on the next iteration).
`integrate` is the abstract transition of the underlying third-party solver. -/
def scipyLoop (integrate : OdeSolver → ℚ → OdeSolver) (step_size tEnd : ℚ) :
    ℕ → OdeSolver → List ℚ → List (List ℚ) → List ℚ × List (List ℚ)
  | 0, _, x, results => (x, results)
  | fuel + 1, solver, x, results =>
    if solver.successful ∧ solver.t < tEnd then
      let solver2 := integrate solver (solver.t + step_size)
      scipyLoop integrate step_size tEnd fuel solver2
        (x ++ [solver2.t]) (appendStates results solver2.y)
    else (x, results)

/-- The sequence of post-`integrate` solver states the scipy loop runs
through, one per recorded sample (proved equal to what `scipyLoop` records). -/
def scipyTrace (integrate : OdeSolver → ℚ → OdeSolver) (step_size tEnd : ℚ) :
    ℕ → OdeSolver → List OdeSolver
  | 0, _ => []
  | fuel + 1, solver =>
    if solver.successful ∧ solver.t < tEnd then
      integrate solver (solver.t + step_size) ::
        scipyTrace integrate step_size tEnd fuel
          (integrate solver (solver.t + step_size))
    else []

/-- `solve_using_scipy(system, method, step_size, interval)`: initialize the
system, build the solver with initial value `(states, interval[0])` (a fresh
scipy `ode` reports `successful() == True`), and run the sampling loop to
`end = interval[-1]`.  The `method` string chooses the underlying scipy
integrator; here that choice is the abstract `integrate` argument. -/
def solve_using_scipy (system : System) (integrate : OdeSolver → ℚ → OdeSolver)
    (step_size : ℚ) (interval : List ℚ) (fuel : ℕ) :
    List ℚ × List (List ℚ) :=
  let srv := initSystem system
  scipyLoop integrate step_size (interval.getLast!) fuel
    ⟨interval.head!, srv.1, true⟩ [] (List.replicate srv.1.length [])

/-- `solve_using_dop853`: delegate to `solve_using_scipy` with scipy's
`"dop853"` integrator (abstracted as `integrate`). -/
def solve_using_dop853 (system : System)
    (integrate : OdeSolver → ℚ → OdeSolver) (step_size : ℚ)
    (interval : List ℚ) (fuel : ℕ) : List ℚ × List (List ℚ) :=
  solve_using_scipy system integrate step_size interval fuel

/-- `solve_using_vode`: delegate to `solve_using_scipy` with scipy's
`"vode"` integrator (abstracted as `integrate`). -/
def solve_using_vode (system : System)
    (integrate : OdeSolver → ℚ → OdeSolver) (step_size : ℚ)
    (interval : List ℚ) (fuel : ℕ) : List ℚ × List (List ℚ) :=
  solve_using_scipy system integrate step_size interval fuel

/-- `TimeExecution.__call__`: when `run_timeit` is set, call the wrapped
driver `number` times purely for timing (results discarded; the wall-clock
reads and the printed average are I/O, outside the embedding), then — in
either case — return the value of one plain call `self._f(*args)`. -/
def timeExecutionCall {α β : Type} (run_timeit : Bool) (number : ℕ)
    (f : α → β) (a : α) : β :=
  if run_timeit then
    let _timing := (List.range number).map (fun _ => f a)
    f a
  else
    f a

/-- `KNOWN_SOLVERS = ['euler', 'dop853', 'vode']`. -/
def KNOWN_SOLVERS : List String := ["euler", "dop853", "vode"]

/-- What `main()` leaves behind after driver selection: the trajectory
`[x, y_n]` and the `valid_solution` flag (`false` exactly on the
unknown-solver branch, where the source prints the UnknownMethod message and
the usage help instead of integrating, and skips plotting). -/
structure MainResult where
  x : List ℚ
  y_n : List (List ℚ)
  valid_solution : Bool
deriving DecidableEq

/-- The driver-selection core of `main()`: dispatch on `args.solver` over the
three recognized names, or take the unknown-solver branch (`x = []`,
`y_n = []`, `valid_solution = False`).  CLI parsing, the `TimeExecution`
class-flag mutation and `plot_solution` are I/O glue outside the embedding;
`integD`/`integV` are the abstract scipy integrators for dop853/vode. -/
def main (solver : String) (module : System)
    (integD integV : OdeSolver → ℚ → OdeSolver) (step_size : ℚ)
    (interval : List ℚ) (fuel : ℕ) : MainResult :=
  if solver = "euler" then
    let r := solve_using_euler module step_size interval fuel
    ⟨r.1, r.2, true⟩
  else if solver = "dop853" then
    let r := solve_using_dop853 module integD step_size interval fuel
    ⟨r.1, r.2, true⟩
  else if solver = "vode" then
    let r := solve_using_vode module integV step_size interval fuel
    ⟨r.1, r.2, true⟩
  else
    ⟨[], [], false⟩

/-- A concrete contract instance for the spec's reference scalar system
`dy/dt = -y`, `y(0) = 1`: one state, one rate, no auxiliary variables;
`initializeConstants` writes `states[0] = 1.0` and `computeRates` writes
`rates[0] = -states[0]` (in-place writes modelled with `List.set`). -/
def decaySys : System where
  createStateVector := [0]
  createRateVector := [0]
  createVariableVector := []
  initConstants := fun s v => (s.set 0 1, v)
  computeComputedConstants := fun v => v
  computeRates := fun _ s r v => (r.set 0 (-s.headD 0), v)

/-- An underlying-solver behavior that always succeeds and reaches the
requested target time exactly (state carried unchanged) — the shape of every
successful `scipy` integration step. -/
def goodIntegrate : OdeSolver → ℚ → OdeSolver :=
  fun solver target => ⟨target, solver.y, true⟩

/-- An underlying-solver behavior that fails immediately: `integrate`
reports non-success without advancing time or changing the state — the shape
of a scipy integration attempt that cannot make any progress. -/
def failIntegrate : OdeSolver → ℚ → OdeSolver :=
  fun solver _ => ⟨solver.t, solver.y, false⟩

/-- An underlying-solver behavior that succeeds on the first call (from time
`0`) and fails, without advancing time, on any later call. -/
def flakyIntegrate : OdeSolver → ℚ → OdeSolver :=
  fun solver target =>
    if solver.t = 0 then ⟨target, solver.y, true⟩
    else ⟨solver.t, solver.y, false⟩

/-- A concrete contract instance with two states but a rate vector of length
one (inconsistent factory lengths), exercising the driver's `zip`
truncation. -/
def shortRateSys : System where
  createStateVector := [0, 5]
  createRateVector := [0]
  createVariableVector := []
  initConstants := fun s v => (s.set 0 1, v)
  computeComputedConstants := fun v => v
  computeRates := fun _ s r v => (r.set 0 (-s.headD 0), v)

/-! ## List accumulator lemmas -/

lemma appendStates_length (rs : List (List ℚ)) (vs : List ℚ) :
    (appendStates rs vs).length = rs.length := by
  induction rs generalizing vs with
  | nil => cases vs <;> simp [appendStates]
  | cons r rs ih =>
    cases vs with
    | nil => simp [appendStates]
    | cons v vs => simp [appendStates, ih]

lemma appendStates_getElem? (rs : List (List ℚ)) (vs : List ℚ) (i : ℕ) :
    (appendStates rs vs)[i]? = (rs[i]?).map (fun r => r ++ (vs[i]?).toList) := by
  induction rs generalizing vs i with
  | nil => cases vs <;> simp [appendStates]
  | cons r rs ih =>
    cases vs with
    | nil => cases i <;> simp [appendStates]
    | cons v vs =>
      cases i with
      | zero => simp [appendStates]
      | succ n => simp [appendStates, ih]

lemma foldl_appendStates_length {α : Type} (f : α → List ℚ) (l : List α) :
    ∀ res : List (List ℚ),
      (l.foldl (fun acc a => appendStates acc (f a)) res).length = res.length := by
  induction l with
  | nil => intro res; simp
  | cons a l ih => intro res; rw [List.foldl_cons, ih, appendStates_length]

lemma foldl_appendStates_getElem? {α : Type} (f : α → List ℚ) (l : List α) :
    ∀ (res : List (List ℚ)) (i : ℕ),
      (l.foldl (fun acc a => appendStates acc (f a)) res)[i]? =
        (res[i]?).map (fun r => r ++ l.filterMap (fun a => (f a)[i]?)) := by
  induction l with
  | nil => intro res i; simp
  | cons a l ih =>
    intro res i
    rw [List.foldl_cons, ih, appendStates_getElem?]
    cases hres : res[i]? <;> cases hfa : (f a)[i]? <;>
      simp [hres, hfa, List.filterMap_cons, List.append_assoc]

lemma filterMap_getElem?_of_pairwise {α : Type} (g : α → List ℚ) (i : ℕ)
    (l : List α) :
    l.Pairwise (fun a b => (g b).length ≤ (g a).length) →
      ∀ k : ℕ, (l.filterMap (fun a => (g a)[i]?))[k]? =
        (l[k]?).bind (fun a => (g a)[i]?) := by
  induction l with
  | nil => intro _ k; simp
  | cons a l ih =>
    intro hpw k
    rw [List.pairwise_cons] at hpw
    cases ha : (g a)[i]? with
    | some v =>
      simp only [List.filterMap_cons, ha]
      cases k with
      | zero => simp [ha]
      | succ k => simp [ih hpw.2 k]
    | none =>
      have hlen : (g a).length ≤ i := List.getElem?_eq_none_iff.mp ha
      have hall : ∀ b ∈ l, (g b)[i]? = none := by
        intro b hb
        exact List.getElem?_eq_none (le_trans (hpw.1 b hb) hlen)
      simp only [List.filterMap_cons, ha, List.filterMap_eq_nil_iff.mpr hall]
      cases k with
      | zero => simp [ha]
      | succ k =>
        simp only [List.getElem?_nil, List.getElem?_cons_succ]
        cases hk : l[k]? with
        | none => simp
        | some b => simp [hall b (List.getElem?_mem hk)]

lemma filterMap_length_of_all_some {α : Type} (g : α → Option ℚ) (l : List α) :
    (∀ a ∈ l, (g a).isSome) → (l.filterMap g).length = l.length := by
  induction l with
  | nil => simp
  | cons a l ih =>
    intro hall
    cases ha : g a with
    | none =>
      have := hall a (by simp)
      rw [ha] at this
      simp at this
    | some v =>
      simp [List.filterMap_cons, ha, ih (fun b hb => hall b (by simp [hb]))]

/-! ## The Euler loop as a sample list -/

lemma eulerLoop_eq (system : System) (h e : ℚ) (fuel : ℕ) :
    ∀ (t : ℚ) (s r v x : List ℚ) (res : List (List ℚ)),
      eulerLoop system h e fuel t s r v x res =
        (x ++ (eulerSamples system h e fuel t (s, r, v)).map Prod.fst,
         (eulerSamples system h e fuel t (s, r, v)).foldl
           (fun acc p => appendStates acc p.2) res) := by
  induction fuel with
  | zero => intro t s r v x res; simp [eulerLoop, eulerSamples]
  | succ n ih =>
    intro t s r v x res
    by_cases ht : t < e
    · simp only [eulerLoop, eulerSamples, if_pos ht, eulerStep]
      rw [ih]
      simp [List.append_assoc]
    · simp [eulerLoop, eulerSamples, if_neg ht]

lemma eulerLoop_of_not_lt (system : System) (h e : ℚ) (fuel : ℕ) (t : ℚ)
    (s r v x : List ℚ) (res : List (List ℚ)) (ht : ¬ t < e) :
    eulerLoop system h e fuel t s r v x res = (x, res) := by
  cases fuel <;> simp [eulerLoop, if_neg ht]

lemma eulerSamples_stable (system : System) (h e : ℚ) (f1 : ℕ) :
    ∀ (f2 : ℕ) (t : ℚ) (srv : List ℚ × List ℚ × List ℚ),
      e ≤ t + f1 * h → f1 ≤ f2 →
      eulerSamples system h e f2 t srv = eulerSamples system h e f1 t srv := by
  induction f1 with
  | zero =>
    intro f2 t srv hle hf
    have ht : ¬ t < e := not_lt.mpr (by simpa using hle)
    cases f2 <;> simp [eulerSamples, if_neg ht]
  | succ n ih =>
    intro f2 t srv hle hf
    obtain ⟨m, rfl⟩ : ∃ m, f2 = m + 1 := ⟨f2 - 1, by omega⟩
    by_cases ht : t < e
    · simp only [eulerSamples, if_pos ht]
      rw [ih m (t + h) _ (by push_cast at hle ⊢; linarith) (by omega)]
    · simp [eulerSamples, if_neg ht]

lemma solve_using_euler_stable (system : System) (h : ℚ) (interval : List ℚ)
    (f1 f2 : ℕ) (hle : interval.getLast! ≤ interval.head! + f1 * h)
    (hf : f1 ≤ f2) :
    solve_using_euler system h interval f2 =
      solve_using_euler system h interval f1 := by
  unfold solve_using_euler
  rw [eulerLoop_eq, eulerLoop_eq, eulerSamples_stable system h _ f1 f2 _ _ hle hf]

lemma eulerSamples_getElem?_eq (system : System) (h e : ℚ) (fuel : ℕ) :
    ∀ (k : ℕ) (t : ℚ) (srv : List ℚ × List ℚ × List ℚ) (p : ℚ × List ℚ),
      (eulerSamples system h e fuel t srv)[k]? = some p →
      p = (t + k * h, (eulerIter system h (k + 1) t srv).1) := by
  induction fuel with
  | zero => intro k t srv p hp; simp [eulerSamples] at hp
  | succ n ih =>
    intro k t srv p hp
    by_cases ht : t < e
    · simp only [eulerSamples, if_pos ht] at hp
      cases k with
      | zero =>
        simp only [List.getElem?_cons_zero, Option.some_inj] at hp
        rw [← hp]
        have h1 : eulerIter system h 1 t srv =
            eulerStep system h t srv := rfl
        rw [h1]
        norm_num
      | succ k =>
        rw [List.getElem?_cons_succ] at hp
        have h2 := ih k (t + h) (eulerStep system h t srv) p hp
        have h3 : eulerIter system h (k + 1 + 1) t srv =
            eulerIter system h (k + 1) (t + h) (eulerStep system h t srv) := rfl
        rw [h2, h3]
        have h4 : t + h + (k : ℚ) * h = t + ((k : ℕ) + 1 : ℕ) * h := by
          push_cast; ring
        rw [h4]
    · simp [eulerSamples, if_neg ht] at hp

lemma eulerSamples_head?_fst (system : System) (h e : ℚ) (fuel : ℕ) (t : ℚ)
    (srv : List ℚ × List ℚ × List ℚ) (p : ℚ × List ℚ)
    (hp : (eulerSamples system h e fuel t srv).head? = some p) : p.1 = t := by
  cases fuel with
  | zero => simp [eulerSamples] at hp
  | succ n =>
    by_cases ht : t < e
    · simp only [eulerSamples, if_pos ht, List.head?_cons, Option.some_inj] at hp
      rw [← hp]
    · simp [eulerSamples, if_neg ht] at hp

lemma eulerSamples_chain' (system : System) (h e : ℚ) (hh : 0 < h) (fuel : ℕ) :
    ∀ (t : ℚ) (srv : List ℚ × List ℚ × List ℚ),
      List.Chain' (· < ·) ((eulerSamples system h e fuel t srv).map Prod.fst) := by
  induction fuel with
  | zero => intro t srv; simp [eulerSamples]
  | succ n ih =>
    intro t srv
    by_cases ht : t < e
    · simp only [eulerSamples, if_pos ht, List.map_cons]
      rw [List.chain'_cons']
      refine ⟨?_, ih (t + h) (eulerStep system h t srv)⟩
      intro b hb
      rw [Option.mem_def, List.head?_map] at hb
      cases hq : (eulerSamples system h e n (t + h)
          (eulerStep system h t srv)).head? with
      | none => rw [hq] at hb; simp at hb
      | some q =>
        rw [hq] at hb
        have hfst := eulerSamples_head?_fst system h e n (t + h) _ q hq
        have hbq : b = q.1 := by
          simp only [Option.map_some'] at hb
          exact (Option.some_inj.mp hb).symm
        rw [hbq, hfst]
        linarith
    · simp [eulerSamples, if_neg ht]

lemma eulerSamples_states_length_le (system : System) (h e : ℚ) (fuel : ℕ) :
    ∀ (t : ℚ) (srv : List ℚ × List ℚ × List ℚ),
      ∀ p ∈ eulerSamples system h e fuel t srv, p.2.length ≤ srv.1.length := by
  induction fuel with
  | zero => intro t srv p hp; simp [eulerSamples] at hp
  | succ n ih =>
    intro t srv p hp
    by_cases ht : t < e
    · simp only [eulerSamples, if_pos ht] at hp
      have hstep : (eulerStep system h t srv).1.length ≤ srv.1.length := by
        simp [eulerStep]
      rcases List.mem_cons.mp hp with hh' | htail
      · rw [hh']
        exact hstep
      · exact le_trans (ih (t + h) (eulerStep system h t srv) p htail) hstep
    · simp [eulerSamples, if_neg ht] at hp

lemma eulerSamples_pairwise (system : System) (h e : ℚ) (fuel : ℕ) :
    ∀ (t : ℚ) (srv : List ℚ × List ℚ × List ℚ),
      (eulerSamples system h e fuel t srv).Pairwise
        (fun a b => b.2.length ≤ a.2.length) := by
  induction fuel with
  | zero => intro t srv; simp [eulerSamples]
  | succ n ih =>
    intro t srv
    by_cases ht : t < e
    · simp only [eulerSamples, if_pos ht]
      refine List.Pairwise.cons ?_ (ih (t + h) (eulerStep system h t srv))
      intro p hp
      exact eulerSamples_states_length_le system h e n (t + h) _ p hp
    · simp [eulerSamples, if_neg ht]

lemma eulerSamples_states_length_inv (system : System) (h e : ℚ)
    (hcr : ∀ t s r v, ((system.computeRates t s r v).1).length = r.length)
    (fuel : ℕ) :
    ∀ (t : ℚ) (srv : List ℚ × List ℚ × List ℚ),
      srv.2.1.length ≤ srv.1.length →
      ∀ p ∈ eulerSamples system h e fuel t srv, p.2.length = srv.2.1.length := by
  induction fuel with
  | zero => intro t srv hlen p hp; simp [eulerSamples] at hp
  | succ n ih =>
    intro t srv hlen p hp
    by_cases ht : t < e
    · simp only [eulerSamples, if_pos ht] at hp
      have hs2 : (eulerStep system h t srv).1.length = srv.2.1.length := by
        simp [eulerStep, hcr]
        omega
      have hr2 : (eulerStep system h t srv).2.1.length = srv.2.1.length := by
        simp [eulerStep, hcr]
      rcases List.mem_cons.mp hp with hh' | htail
      · rw [hh']
        exact hs2
      · have := ih (t + h) (eulerStep system h t srv) (by rw [hs2, hr2]) p htail
        rw [this, hr2]
    · simp [eulerSamples, if_neg ht] at hp

lemma eulerSamples_zero_step_length (system : System) (e : ℚ) (fuel : ℕ) :
    ∀ (t : ℚ) (srv : List ℚ × List ℚ × List ℚ), t < e →
      (eulerSamples system 0 e fuel t srv).length = fuel := by
  induction fuel with
  | zero => intro t srv ht; simp [eulerSamples]
  | succ n ih =>
    intro t srv ht
    simp only [eulerSamples, if_pos ht, List.length_cons, add_zero]
    rw [ih t (eulerStep system 0 t srv) ht]

/-! ## The scipy loop as a solver-state trace -/

lemma scipyLoop_eq (integ : OdeSolver → ℚ → OdeSolver) (h e : ℚ) (fuel : ℕ) :
    ∀ (s : OdeSolver) (x : List ℚ) (res : List (List ℚ)),
      scipyLoop integ h e fuel s x res =
        (x ++ (scipyTrace integ h e fuel s).map OdeSolver.t,
         (scipyTrace integ h e fuel s).foldl
           (fun acc s2 => appendStates acc s2.y) res) := by
  induction fuel with
  | zero => intro s x res; simp [scipyLoop, scipyTrace]
  | succ n ih =>
    intro s x res
    by_cases hg : s.successful ∧ s.t < e
    · simp only [scipyLoop, scipyTrace, if_pos hg]
      rw [ih]
      simp [List.append_assoc]
    · simp [scipyLoop, scipyTrace, if_neg hg]

lemma scipyTrace_nil_of_not (integ : OdeSolver → ℚ → OdeSolver) (h e : ℚ)
    (fuel : ℕ) (s : OdeSolver) (hg : ¬(s.successful ∧ s.t < e)) :
    scipyTrace integ h e fuel s = [] := by
  cases fuel <;> simp [scipyTrace, if_neg hg]

lemma scipyTrace_guard_of_ne_nil (integ : OdeSolver → ℚ → OdeSolver) (h e : ℚ)
    (fuel : ℕ) (s : OdeSolver) (hne : scipyTrace integ h e fuel s ≠ []) :
    s.successful = true ∧ s.t < e := by
  by_contra hg
  exact hne (scipyTrace_nil_of_not integ h e fuel s hg)

lemma scipyTrace_head?_eq (integ : OdeSolver → ℚ → OdeSolver) (h e : ℚ)
    (fuel : ℕ) (s : OdeSolver) (p : OdeSolver)
    (hp : (scipyTrace integ h e fuel s).head? = some p) :
    p = integ s (s.t + h) := by
  cases fuel with
  | zero => simp [scipyTrace] at hp
  | succ n =>
    by_cases hg : s.successful ∧ s.t < e
    · simp only [scipyTrace, if_pos hg, List.head?_cons, Option.some_inj] at hp
      exact hp.symm
    · simp [scipyTrace, if_neg hg] at hp

lemma scipyTrace_successful_of_next (integ : OdeSolver → ℚ → OdeSolver)
    (h e : ℚ) (fuel : ℕ) :
    ∀ (s : OdeSolver) (k : ℕ) (p q : OdeSolver),
      (scipyTrace integ h e fuel s)[k]? = some p →
      (scipyTrace integ h e fuel s)[k + 1]? = some q →
      p.successful = true := by
  induction fuel with
  | zero => intro s k p q hp hq; simp [scipyTrace] at hp
  | succ n ih =>
    intro s k p q hp hq
    by_cases hg : s.successful ∧ s.t < e
    · simp only [scipyTrace, if_pos hg] at hp hq
      cases k with
      | zero =>
        simp only [List.getElem?_cons_zero, Option.some_inj] at hp
        rw [List.getElem?_cons_succ] at hq
        have hne : scipyTrace integ h e n (integ s (s.t + h)) ≠ [] := by
          intro hnil
          rw [hnil] at hq
          simp at hq
        have hg2 := scipyTrace_guard_of_ne_nil integ h e n _ hne
        rw [← hp]
        exact hg2.1
      | succ k =>
        rw [List.getElem?_cons_succ] at hp hq
        exact ih _ k p q hp hq
    · simp [scipyTrace, if_neg hg] at hp

lemma scipyTrace_y_length (integ : OdeSolver → ℚ → OdeSolver) (h e : ℚ)
    (hy : ∀ (s : OdeSolver) (tg : ℚ), ((integ s tg).y).length = s.y.length)
    (fuel : ℕ) :
    ∀ (s : OdeSolver), ∀ p ∈ scipyTrace integ h e fuel s,
      p.y.length = s.y.length := by
  induction fuel with
  | zero => intro s p hp; simp [scipyTrace] at hp
  | succ n ih =>
    intro s p hp
    by_cases hg : s.successful ∧ s.t < e
    · simp only [scipyTrace, if_pos hg] at hp
      rcases List.mem_cons.mp hp with hh' | htail
      · rw [hh']
        exact hy s (s.t + h)
      · rw [ih (integ s (s.t + h)) p htail, hy s (s.t + h)]
    · simp [scipyTrace, if_neg hg] at hp

lemma scipyTrace_chain' (integ : OdeSolver → ℚ → OdeSolver) (h e : ℚ)
    (hh : 0 < h)
    (hadv : ∀ (s : OdeSolver) (tg : ℚ), s.t < tg → s.t < (integ s tg).t)
    (fuel : ℕ) :
    ∀ (s : OdeSolver),
      List.Chain' (· < ·) ((scipyTrace integ h e fuel s).map OdeSolver.t) := by
  induction fuel with
  | zero => intro s; simp [scipyTrace]
  | succ n ih =>
    intro s
    by_cases hg : s.successful ∧ s.t < e
    · simp only [scipyTrace, if_pos hg, List.map_cons]
      rw [List.chain'_cons']
      refine ⟨?_, ih (integ s (s.t + h))⟩
      intro b hb
      rw [Option.mem_def, List.head?_map] at hb
      cases hq : (scipyTrace integ h e n (integ s (s.t + h))).head? with
      | none => rw [hq] at hb; simp at hb
      | some q =>
        rw [hq] at hb
        have hqe := scipyTrace_head?_eq integ h e n _ q hq
        have hbq : b = q.t := by
          simp only [Option.map_some'] at hb
          exact (Option.some_inj.mp hb).symm
        rw [hbq, hqe]
        exact hadv _ _ (by linarith)
    · simp [scipyTrace, if_neg hg]

/-! ## Claim theorems -/

/-- C7: for any model and any step size, if `interval.start >= interval.end`
then the fixed-step driver returns a Trajectory with zero time samples and
every per-state series empty (`results` stays one empty list per state) —
a valid result, not an error: the `while t < end` guard fails immediately
and `solve_using_euler` returns the initial accumulators. -/
theorem euler_empty_interval (system : System) (step_size : ℚ)
    (interval : List ℚ) (fuel : ℕ)
    (hge : interval.getLast! ≤ interval.head!) :
    solve_using_euler system step_size interval fuel =
      ([], List.replicate (initSystem system).1.length []) := by
  unfold solve_using_euler
  exact eulerLoop_of_not_lt system step_size _ fuel _ _ _ _ _ _ (not_lt.mpr hge)

/-- Witness for C7 at the concrete reversed interval `[2, 1]`. -/
theorem euler_empty_interval_witness :
    ([(2:ℚ), 1].getLast! ≤ [(2:ℚ), 1].head!) ∧
      solve_using_euler decaySys (1/10) [2, 1] 5 =
        ([], List.replicate (initSystem decaySys).1.length []) :=
  ⟨by decide, euler_empty_interval decaySys (1/10) [2, 1] 5 (by decide)⟩

/-- C8: selecting a method identifier outside the exactly three recognized
names in `KNOWN_SOLVERS` takes `main`'s final `else` branch: no driver runs,
no Trajectory is produced (`x = []`, `y_n = []`) and the UnknownMethod
condition is signalled as `valid_solution = false` (the source prints the
message and the usage help there); `main` is total, so nothing is thrown
past the selection boundary. -/
theorem main_unknown_solver (solver : String) (module : System)
    (integD integV : OdeSolver → ℚ → OdeSolver) (step_size : ℚ)
    (interval : List ℚ) (fuel : ℕ) (hs : solver ∉ KNOWN_SOLVERS) :
    main solver module integD integV step_size interval fuel =
      ⟨[], [], false⟩ := by
  have h1 : ¬ solver = "euler" := fun h => hs (by simp [KNOWN_SOLVERS, h])
  have h2 : ¬ solver = "dop853" := fun h => hs (by simp [KNOWN_SOLVERS, h])
  have h3 : ¬ solver = "vode" := fun h => hs (by simp [KNOWN_SOLVERS, h])
  simp [main, h1, h2, h3]

/-- Witness for C8 at the unrecognized identifier `"rk4"`. -/
theorem main_unknown_solver_witness :
    ("rk4" ∉ KNOWN_SOLVERS) ∧
      main "rk4" decaySys goodIntegrate goodIntegrate (1/10) [0, 1] 3 =
        ⟨[], [], false⟩ :=
  ⟨by decide,
   main_unknown_solver "rk4" decaySys goodIntegrate goodIntegrate (1/10)
     [0, 1] 3 (by decide)⟩

/-- C9: wrapping any of the three drivers in the `TimeExecution`
instrumentation returns exactly the trajectory of the undecorated driver
call, for every repetition count and whether or not timing is enabled: the
timing loop only repeats the call and discards the repeats' results. -/
theorem time_execution_preserves_result (run_timeit : Bool) (number : ℕ)
    (system : System) (integD integV : OdeSolver → ℚ → OdeSolver)
    (step_size : ℚ) (interval : List ℚ) (fuel : ℕ) :
    timeExecutionCall run_timeit number
        (fun _ : Unit => solve_using_euler system step_size interval fuel) () =
      solve_using_euler system step_size interval fuel ∧
    timeExecutionCall run_timeit number
        (fun _ : Unit =>
          solve_using_dop853 system integD step_size interval fuel) () =
      solve_using_dop853 system integD step_size interval fuel ∧
    timeExecutionCall run_timeit number
        (fun _ : Unit =>
          solve_using_vode system integV step_size interval fuel) () =
      solve_using_vode system integV step_size interval fuel := by
  refine ⟨?_, ?_, ?_⟩ <;> cases run_timeit <;> rfl

/-- C4 (code bug evidence): `solve_using_euler` performs no validation of the
step size.  At step size `0` with the valid interval `[0, 1]` the loop guard
`t < end` never becomes false: for every fuel bound the loop runs exactly
`fuel` iterations and records `fuel` samples (all at time 0), i.e. the
Python loop never terminates and no InvalidArgument condition is ever
raised. -/
theorem euler_zero_step_size_never_terminates (fuel : ℕ) :
    ((solve_using_euler decaySys 0 [0, 1] fuel).1).length = fuel := by
  unfold solve_using_euler
  rw [eulerLoop_eq]
  simp only [List.nil_append, List.length_map]
  apply eulerSamples_zero_step_length
  decide

/-- C1 counterexample: on the spec's own linear system `dy/dt = -y`,
`y(0) = 1`, step size `1/10`, interval `[0, 1/5)`, the fixed-step driver
does produce exactly two samples, but their recorded state values are
`9/10` and `81/100` — not `1` and `9/10` as the claim states (the driver
records the post-update state of each step, never the initial value). -/
theorem euler_decay_recorded_values_counterexample :
    (solve_using_euler decaySys (1/10) [0, 1/5] 10).1.length = 2 ∧
    (solve_using_euler decaySys (1/10) [0, 1/5] 10).2 = [[9/10, 81/100]] ∧
    ([[(9:ℚ)/10, 81/100]] : List (List ℚ)) ≠ [[1, 9/10]] := by
  refine ⟨?_, ?_, ?_⟩ <;>
    norm_num [solve_using_euler, eulerLoop, initSystem, decaySys, appendStates,
      List.getLast!, List.getLast?, List.getLast, List.head!]

/-- C1 (amended): for the scalar system `dy/dt = -y`, `y(0)=1`, step size
`1/10` and interval `[0, 1/5)`, the fixed-step driver produces exactly two
samples, recorded at times `0` and `1/10`, whose recorded state values are
`9/10` and then `81/100` (the post-update states `y + (-y) * (1/10)`),
independent of the fuel bound once it covers the two iterations. -/
theorem euler_decay_two_samples_post_update (fuel : ℕ) (hfuel : 2 ≤ fuel) :
    solve_using_euler decaySys (1/10) [0, 1/5] fuel =
      ([0, 1/10], [[9/10, 81/100]]) := by
  rw [solve_using_euler_stable decaySys (1/10) [0, 1/5] 2 fuel
    (by norm_num [List.getLast!, List.getLast?, List.getLast, List.head!]) hfuel]
  norm_num [solve_using_euler, eulerLoop, initSystem, decaySys, appendStates,
    List.getLast!, List.getLast?, List.getLast, List.head!]

/-- Witness for C1 (amended) at fuel `2`. -/
theorem euler_decay_two_samples_post_update_witness :
    2 ≤ 2 ∧ solve_using_euler decaySys (1/10) [0, 1/5] 2 =
      ([0, 1/10], [[9/10, 81/100]]) :=
  ⟨le_refl 2, euler_decay_two_samples_post_update 2 (le_refl 2)⟩

/-- C5 counterexample: with an underlying solver whose very first integration
attempt fails without advancing (reported time and state unchanged,
`successful()` now false), the adapter still records one sample — the failed
attempt's reported time `0` — before the loop guard stops it.  Under the
claim ("recorded after each successful forward integration and only after
successful ones") this run would have to record no samples at all. -/
theorem scipy_records_failed_integration_sample :
    (solve_using_scipy decaySys failIntegrate (1/10) [0, 1] 10).1 = [0] ∧
    (failIntegrate ⟨0, (initSystem decaySys).1, true⟩ (0 + 1/10)).successful
      = false := by
  constructor
  · norm_num [solve_using_scipy, scipyLoop, initSystem, decaySys, appendStates,
      failIntegrate, List.getLast!, List.getLast?, List.getLast, List.head!]
  · rfl

/-- C5 (amended): the adapter records one sample per `integrate` call made
inside the loop — the recorded times are exactly the reported times of the
post-`integrate` solver states in `scipyTrace`; every sample that is
followed by another one comes from a successful integration (the guard
re-checks `successful()` before each further attempt); and on failure the
loop simply stops and the accumulated trajectory is returned, so the final
recorded sample may come from the failed attempt. -/
theorem scipy_all_but_last_successful (system : System)
    (integrate : OdeSolver → ℚ → OdeSolver) (step_size : ℚ)
    (interval : List ℚ) (fuel : ℕ) :
    (solve_using_scipy system integrate step_size interval fuel).1 =
      (scipyTrace integrate step_size interval.getLast! fuel
        ⟨interval.head!, (initSystem system).1, true⟩).map OdeSolver.t ∧
    ∀ (k : ℕ) (p q : OdeSolver),
      (scipyTrace integrate step_size interval.getLast! fuel
        ⟨interval.head!, (initSystem system).1, true⟩)[k]? = some p →
      (scipyTrace integrate step_size interval.getLast! fuel
        ⟨interval.head!, (initSystem system).1, true⟩)[k + 1]? = some q →
      p.successful = true := by
  constructor
  · unfold solve_using_scipy
    rw [scipyLoop_eq]
    simp only [List.nil_append]
  · intro k p q hp hq
    exact scipyTrace_successful_of_next integrate step_size _ fuel _ k p q hp hq

/-- Witness for C5 (amended) on a run with two samples (underlying solver
always succeeds), applied at the first sample. -/
theorem scipy_all_but_last_successful_witness :
    (⟨1/10, (initSystem decaySys).1, true⟩ : OdeSolver).successful = true :=
  (scipy_all_but_last_successful decaySys goodIntegrate (1/10) [0, 1/5]
      5).2 0
    ⟨1/10, (initSystem decaySys).1, true⟩
    ⟨1/5, (initSystem decaySys).1, true⟩
    (by norm_num [scipyTrace, goodIntegrate, initSystem, decaySys,
      List.getLast!, List.getLast?, List.getLast, List.head!])
    (by norm_num [scipyTrace, goodIntegrate, initSystem, decaySys,
      List.getLast!, List.getLast?, List.getLast, List.head!])

/-- C6 counterexample: a valid run (positive step size, forward interval) of
the adapter with an underlying solver that succeeds once (reaching `1/10`)
and then fails without advancing: the recorded times are `[1/10, 1/10]`,
not strictly increasing, because the failed second attempt is recorded
too. -/
theorem scipy_flaky_times_not_strictly_increasing :
    (0:ℚ) < 1/10 ∧ (0:ℚ) < 1 ∧
    (solve_using_scipy decaySys flakyIntegrate (1/10) [0, 1] 10).1 =
      [1/10, 1/10] ∧
    ¬ List.Chain' (· < ·)
        (solve_using_scipy decaySys flakyIntegrate (1/10) [0, 1] 10).1 := by
  have heq : (solve_using_scipy decaySys flakyIntegrate (1/10) [0, 1] 10).1 =
      [1/10, 1/10] := by
    norm_num [solve_using_scipy, scipyLoop, initSystem, decaySys, appendStates,
      flakyIntegrate, List.getLast!, List.getLast?, List.getLast, List.head!]
  refine ⟨by norm_num, by norm_num, heq, ?_⟩
  rw [heq, List.chain'_cons]
  intro hc
  exact absurd hc.1 (by norm_num)

/-- C6 (amended): the recorded times are strictly increasing for the
fixed-step driver whenever the step size is positive, and for the adapter
whenever additionally every `integrate` call strictly advances the solver's
reported time (as every successful scipy integration to `t + step_size`
does); a failed attempt that does not advance the reported time is recorded
too and can repeat the previous recorded time (see the counterexample). -/
theorem recorded_times_strictly_increasing (system : System)
    (integrate : OdeSolver → ℚ → OdeSolver) (step_size : ℚ)
    (interval : List ℚ) (fuel : ℕ) (hstep : 0 < step_size)
    (hadv : ∀ (s : OdeSolver) (tg : ℚ), s.t < tg → s.t < (integrate s tg).t) :
    List.Chain' (· < ·) (solve_using_euler system step_size interval fuel).1 ∧
    List.Chain' (· < ·)
      (solve_using_scipy system integrate step_size interval fuel).1 := by
  constructor
  · unfold solve_using_euler
    rw [eulerLoop_eq]
    simp only [List.nil_append]
    exact eulerSamples_chain' system step_size _ hstep fuel _ _
  · unfold solve_using_scipy
    rw [scipyLoop_eq]
    simp only [List.nil_append]
    exact scipyTrace_chain' integrate step_size _ hstep hadv fuel _

/-- Witness for C6 (amended) on concrete runs of both drivers. -/
theorem recorded_times_strictly_increasing_witness :
    (0:ℚ) < 1/10 ∧
    List.Chain' (· < ·) (solve_using_euler decaySys (1/10) [0, 1/5] 5).1 ∧
    List.Chain' (· < ·)
      (solve_using_scipy decaySys goodIntegrate (1/10) [0, 1/5] 5).1 := by
  have h := recorded_times_strictly_increasing decaySys goodIntegrate (1/10)
    [0, 1/5] 5 (by norm_num) (fun s tg hlt => hlt)
  exact ⟨by norm_num, h.1, h.2⟩

/-- C2: characterization of every recorded sample of the fixed-step driver.
The `k`-th recorded time is `interval[0] + k * step_size` — the value of `t`
before that iteration's closing `t += step_size` — and the `k`-th entry of
every per-state series is the corresponding component of the state vector
after `k + 1` Euler updates (`eulerIter`, whose step computes the rates at
the recorded time and then performs `states[i] += rates[i] * step_size`):
every sample pairs the pre-increment time with the post-update states. -/
theorem euler_sample_time_state_alignment (system : System) (step_size : ℚ)
    (interval : List ℚ) (fuel k : ℕ) (tk : ℚ)
    (hk : (solve_using_euler system step_size interval fuel).1[k]? = some tk) :
    tk = interval.head! + k * step_size ∧
    ∀ (i : ℕ) (ri : List ℚ),
      (solve_using_euler system step_size interval fuel).2[i]? = some ri →
      ri[k]? =
        ((eulerIter system step_size (k + 1) interval.head!
          (initSystem system)).1)[i]? := by
  have hsolve : solve_using_euler system step_size interval fuel =
      ((eulerSamples system step_size interval.getLast! fuel interval.head!
          ((initSystem system).1, (initSystem system).2.1,
            (initSystem system).2.2)).map Prod.fst,
        (eulerSamples system step_size interval.getLast! fuel interval.head!
          ((initSystem system).1, (initSystem system).2.1,
            (initSystem system).2.2)).foldl
          (fun acc p => appendStates acc p.2)
          (List.replicate (initSystem system).1.length [])) := by
    unfold solve_using_euler
    rw [eulerLoop_eq]
    simp only [List.nil_append]
  rw [hsolve] at hk ⊢
  simp only [List.getElem?_map] at hk
  cases hks : (eulerSamples system step_size interval.getLast! fuel
      interval.head! ((initSystem system).1, (initSystem system).2.1,
        (initSystem system).2.2))[k]? with
  | none => rw [hks] at hk; simp at hk
  | some p =>
    rw [hks] at hk
    simp only [Option.map_some', Option.some_inj] at hk
    have hpeq := eulerSamples_getElem?_eq system step_size interval.getLast!
      fuel k interval.head! _ p hks
    constructor
    · rw [← hk, hpeq]
    · intro i ri hri
      rw [foldl_appendStates_getElem? Prod.snd] at hri
      cases hrep : (List.replicate (initSystem system).1.length
          ([] : List ℚ))[i]? with
      | none => rw [hrep] at hri; simp at hri
      | some r0 =>
        have hr0 : r0 = [] := by
          rw [List.getElem?_replicate] at hrep
          by_cases hi : i < (initSystem system).1.length
          · rw [if_pos hi] at hrep
            exact (Option.some_inj.mp hrep).symm
          · rw [if_neg hi] at hrep
            exact Option.noConfusion hrep
        rw [hrep] at hri
        simp only [Option.map_some', Option.some_inj] at hri
        rw [← hri, hr0, List.nil_append]
        rw [filterMap_getElem?_of_pairwise Prod.snd i _
          (eulerSamples_pairwise system step_size interval.getLast! fuel
            interval.head! _) k]
        rw [hks, hpeq]
        rfl

/-- Witness for C2 on the concrete decay run, at the first sample and the
single state index. -/
theorem euler_sample_time_state_alignment_witness :
    (0 : ℚ) = [(0:ℚ), 1/5].head! + (0:ℕ) * (1/10) ∧
    ([(9:ℚ)/10, 81/100] : List ℚ)[(0:ℕ)]? =
      ((eulerIter decaySys (1/10) (0 + 1) [(0:ℚ), 1/5].head!
        (initSystem decaySys)).1)[(0:ℕ)]? := by
  have h := euler_sample_time_state_alignment decaySys (1/10) [0, 1/5] 3 0 0
    (by norm_num [solve_using_euler, eulerLoop, initSystem, decaySys,
      appendStates, List.getLast!, List.getLast?, List.getLast, List.head!])
  exact ⟨h.1, h.2 0 [9/10, 81/100]
    (by norm_num [solve_using_euler, eulerLoop, initSystem, decaySys,
      appendStates, List.getLast!, List.getLast?, List.getLast, List.head!])⟩

lemma euler_series_getElem? (system : System) (step_size : ℚ)
    (interval : List ℚ) (fuel : ℕ) (i : ℕ) (ri : List ℚ)
    (hri : (solve_using_euler system step_size interval fuel).2[i]? = some ri) :
    i < (initSystem system).1.length ∧
    ri = (eulerSamples system step_size interval.getLast! fuel interval.head!
      ((initSystem system).1, (initSystem system).2.1,
        (initSystem system).2.2)).filterMap (fun p => p.2[i]?) := by
  have hsolve : (solve_using_euler system step_size interval fuel).2 =
      (eulerSamples system step_size interval.getLast! fuel interval.head!
        ((initSystem system).1, (initSystem system).2.1,
          (initSystem system).2.2)).foldl
        (fun acc p => appendStates acc p.2)
        (List.replicate (initSystem system).1.length []) := by
    unfold solve_using_euler
    rw [eulerLoop_eq]
  rw [hsolve, foldl_appendStates_getElem? Prod.snd] at hri
  cases hrep : (List.replicate (initSystem system).1.length
      ([] : List ℚ))[i]? with
  | none => rw [hrep] at hri; simp at hri
  | some r0 =>
    rw [List.getElem?_replicate] at hrep
    by_cases hi : i < (initSystem system).1.length
    · rw [if_pos hi] at hrep
      rw [List.getElem?_replicate, if_pos hi] at hri
      simp only [Option.map_some', Option.some_inj] at hri
      rw [← hri]
      exact ⟨hi, by simp⟩
    · rw [if_neg hi] at hrep
      exact Option.noConfusion hrep

lemma euler_x_length (system : System) (step_size : ℚ) (interval : List ℚ)
    (fuel : ℕ) :
    (solve_using_euler system step_size interval fuel).1.length =
      (eulerSamples system step_size interval.getLast! fuel interval.head!
        ((initSystem system).1, (initSystem system).2.1,
          (initSystem system).2.2)).length := by
  unfold solve_using_euler
  rw [eulerLoop_eq]
  simp

lemma scipy_series_getElem? (system : System)
    (integ : OdeSolver → ℚ → OdeSolver) (step_size : ℚ) (interval : List ℚ)
    (fuel : ℕ) (i : ℕ) (ri : List ℚ)
    (hri : (solve_using_scipy system integ step_size interval fuel).2[i]? =
      some ri) :
    i < (initSystem system).1.length ∧
    ri = (scipyTrace integ step_size interval.getLast! fuel
      ⟨interval.head!, (initSystem system).1, true⟩).filterMap
        (fun p => p.y[i]?) := by
  have hsolve : (solve_using_scipy system integ step_size interval fuel).2 =
      (scipyTrace integ step_size interval.getLast! fuel
        ⟨interval.head!, (initSystem system).1, true⟩).foldl
        (fun acc s2 => appendStates acc s2.y)
        (List.replicate (initSystem system).1.length []) := by
    unfold solve_using_scipy
    rw [scipyLoop_eq]
  rw [hsolve, foldl_appendStates_getElem? OdeSolver.y] at hri
  by_cases hi : i < (initSystem system).1.length
  · rw [List.getElem?_replicate, if_pos hi] at hri
    simp only [Option.map_some', Option.some_inj] at hri
    rw [← hri]
    exact ⟨hi, by simp⟩
  · rw [List.getElem?_replicate, if_neg hi] at hri
    simp at hri

lemma scipy_x_length (system : System) (integ : OdeSolver → ℚ → OdeSolver)
    (step_size : ℚ) (interval : List ℚ) (fuel : ℕ) :
    (solve_using_scipy system integ step_size interval fuel).1.length =
      (scipyTrace integ step_size interval.getLast! fuel
        ⟨interval.head!, (initSystem system).1, true⟩).length := by
  unfold solve_using_scipy
  rw [scipyLoop_eq]
  simp

lemma scipy_alignment (system : System) (integ : OdeSolver → ℚ → OdeSolver)
    (step_size : ℚ) (interval : List ℚ) (fuel : ℕ)
    (hy : ∀ (s : OdeSolver) (tg : ℚ), ((integ s tg).y).length = s.y.length)
    (i : ℕ) (ri : List ℚ)
    (hri : (solve_using_scipy system integ step_size interval fuel).2[i]? =
      some ri) :
    ri.length =
      (solve_using_scipy system integ step_size interval fuel).1.length := by
  obtain ⟨hi, hfm⟩ := scipy_series_getElem? system integ step_size interval
    fuel i ri hri
  rw [hfm, scipy_x_length]
  apply filterMap_length_of_all_some
  intro p hp
  have hplen : p.y.length = (initSystem system).1.length :=
    scipyTrace_y_length integ step_size interval.getLast! hy fuel
      ⟨interval.head!, (initSystem system).1, true⟩ p hp
  rw [List.getElem?_eq_getElem (by rw [hplen]; exact hi)]
  rfl

/-- C3: sample alignment for all three drivers.  For a model whose factory
vectors have consistent lengths (`len(createRateVector()) ==
len(createStateVector())`) and whose mutating operations preserve their
arguments' lengths (automatic for Python's in-place writes), and for
underlying integrators that preserve the state dimension (as scipy's do),
every per-state series of the returned trajectory has exactly one entry per
recorded time point: `len(times) == len(series[i])` for every state index
`i`. -/
theorem trajectory_sample_alignment (system : System)
    (integD integV : OdeSolver → ℚ → OdeSolver) (step_size : ℚ)
    (interval : List ℚ) (fuel : ℕ)
    (hinit : ∀ s v, ((system.initConstants s v).1).length = s.length)
    (hcr : ∀ t s r v, ((system.computeRates t s r v).1).length = r.length)
    (hlen : system.createRateVector.length = system.createStateVector.length)
    (hyD : ∀ (s : OdeSolver) (tg : ℚ), ((integD s tg).y).length = s.y.length)
    (hyV : ∀ (s : OdeSolver) (tg : ℚ), ((integV s tg).y).length = s.y.length) :
    (∀ (i : ℕ) (ri : List ℚ),
      (solve_using_euler system step_size interval fuel).2[i]? = some ri →
      ri.length =
        (solve_using_euler system step_size interval fuel).1.length) ∧
    (∀ (i : ℕ) (ri : List ℚ),
      (solve_using_dop853 system integD step_size interval fuel).2[i]? =
        some ri →
      ri.length =
        (solve_using_dop853 system integD step_size interval fuel).1.length) ∧
    (∀ (i : ℕ) (ri : List ℚ),
      (solve_using_vode system integV step_size interval fuel).2[i]? =
        some ri →
      ri.length =
        (solve_using_vode system integV step_size interval fuel).1.length) := by
  have hs0 : (initSystem system).1.length = system.createStateVector.length :=
    hinit system.createStateVector system.createVariableVector
  have hr0 : (initSystem system).2.1 = system.createRateVector := rfl
  refine ⟨?_, ?_, ?_⟩
  · intro i ri hri
    obtain ⟨hi, hfm⟩ := euler_series_getElem? system step_size interval fuel
      i ri hri
    rw [hfm, euler_x_length]
    apply filterMap_length_of_all_some
    intro p hp
    have hplen : p.2.length = (initSystem system).2.1.length :=
      eulerSamples_states_length_inv system step_size interval.getLast! hcr
        fuel interval.head!
        ((initSystem system).1, (initSystem system).2.1,
          (initSystem system).2.2)
        (by rw [hr0, hlen, ← hs0]) p hp
    rw [List.getElem?_eq_getElem
      (by rw [hplen, hr0, hlen, ← hs0]; exact hi)]
    rfl
  · exact fun i ri hri =>
      scipy_alignment system integD step_size interval fuel hyD i ri hri
  · exact fun i ri hri =>
      scipy_alignment system integV step_size interval fuel hyV i ri hri

/-- Witness for C3 on the concrete decay run of the fixed-step driver. -/
theorem trajectory_sample_alignment_witness :
    ([(9:ℚ)/10, 81/100] : List ℚ).length =
      (solve_using_euler decaySys (1/10) [0, 1/5] 3).1.length :=
  (trajectory_sample_alignment decaySys goodIntegrate goodIntegrate (1/10)
      [0, 1/5] 3
      (by intro s v; simp [decaySys])
      (by intro t s r v; simp [decaySys])
      rfl
      (fun s tg => rfl)
      (fun s tg => rfl)).1 0 [9/10, 81/100]
    (by norm_num [solve_using_euler, eulerLoop, initSystem, decaySys,
      appendStates, List.getLast!, List.getLast?, List.getLast, List.head!])

/-- C10: when the model's rate vector is shorter than its state vector (and
the mutating operations preserve lengths, as Python's in-place writes do),
the fixed-step driver signals no error: `zip` silently truncates every
updated state vector to the rate vector's length `m` from the first step on,
so each of the first `m` per-state series fills normally — one entry per
recorded time point — while every series with index `>= m` stays empty. -/
theorem euler_rate_truncation (system : System) (step_size : ℚ)
    (interval : List ℚ) (fuel : ℕ)
    (hinit : ∀ s v, ((system.initConstants s v).1).length = s.length)
    (hcr : ∀ t s r v, ((system.computeRates t s r v).1).length = r.length)
    (hlt : system.createRateVector.length <
      system.createStateVector.length) :
    ∀ (i : ℕ) (ri : List ℚ),
      (solve_using_euler system step_size interval fuel).2[i]? = some ri →
      (system.createRateVector.length ≤ i → ri = []) ∧
      (i < system.createRateVector.length →
        ri.length =
          (solve_using_euler system step_size interval fuel).1.length) := by
  have hs0 : (initSystem system).1.length = system.createStateVector.length :=
    hinit system.createStateVector system.createVariableVector
  intro i ri hri
  obtain ⟨hi, hfm⟩ := euler_series_getElem? system step_size interval fuel
    i ri hri
  have hall : ∀ p ∈ eulerSamples system step_size interval.getLast! fuel
      interval.head!
      ((initSystem system).1, (initSystem system).2.1,
        (initSystem system).2.2),
      p.2.length = system.createRateVector.length := by
    intro p hp
    exact eulerSamples_states_length_inv system step_size interval.getLast!
      hcr fuel interval.head! _ (by rw [hs0]; exact le_of_lt hlt) p hp
  constructor
  · intro him
    rw [hfm]
    apply List.filterMap_eq_nil_iff.mpr
    intro p hp
    apply List.getElem?_eq_none
    rw [hall p hp]
    exact him
  · intro hilt
    rw [hfm, euler_x_length]
    apply filterMap_length_of_all_some
    intro p hp
    rw [List.getElem?_eq_getElem (by rw [hall p hp]; exact hilt)]
    rfl

/-- Witness for C10 on the two-state, one-rate model: series `1` stays empty
while series `0` has one entry per time sample. -/
theorem euler_rate_truncation_witness :
    ([] : List ℚ) = [] ∧
    ([(9:ℚ)/10, 81/100] : List ℚ).length =
      (solve_using_euler shortRateSys (1/10) [0, 1/5] 3).1.length := by
  have h := euler_rate_truncation shortRateSys (1/10) [0, 1/5] 3
    (by intro s v; simp [shortRateSys])
    (by intro t s r v; simp [shortRateSys])
    (by norm_num [shortRateSys])
  constructor
  · exact (h 1 []
      (by norm_num [solve_using_euler, eulerLoop, initSystem, shortRateSys,
        appendStates, List.getLast!, List.getLast?, List.getLast,
        List.head!])).1 (by norm_num [shortRateSys])
  · exact (h 0 [9/10, 81/100]
      (by norm_num [solve_using_euler, eulerLoop, initSystem, shortRateSys,
        appendStates, List.getLast!, List.getLast?, List.getLast,
        List.head!])).2 (by norm_num [shortRateSys])

end CellSolver
